import Mathlib

/-!
# Verification of the picolayer `gh_release` acquisition pipeline

Shallow embedding of the release-asset acquisition pipeline
(`src/utils/retry.rs`, `src/installers/gh_release/{verifier,selector,extractor}.rs`)
together with proofs of its key behavioural properties.

Strings are modelled as `List Char` (`Str`), byte sequences as `List Nat`
(values below 256).  Asynchronous network calls are modelled by explicit
outcome functions (`Nat → _` indexed by attempt number, or environment
records), and filesystem state by explicit state passing.
-/

set_option maxHeartbeats 1000000

namespace Picolayer

/-- Strings are modelled as lists of characters. -/
abbrev Str := List Char

/-- Byte sequences are modelled as lists of naturals (each below 256). -/
abbrev Bytes := List Nat

/-! ## `src/utils/retry.rs` — `retry_async`

The Rust operation is an `FnMut` closure returning a future; successive
invocations may observe different outcomes, so the operation is modelled as a
function from the attempt index to the outcome of that invocation.  The
embedding additionally returns how many times the operation was invoked and
how many backoff sleeps were performed (the fractional delay arithmetic only
scales sleep durations and is irrelevant to the control flow, so sleeps are
counted rather than timed). -/

/-- `RetryConfig` from `src/cli` as consumed by `retry_async`:
`max_retries` and `initial_delay_ms` (the float `backoff_multiplier` only
scales the sleep durations, which the embedding records as sleep events). -/
structure RetryConfig where
  max_retries : Nat
  initial_delay_ms : Nat

/-- Outcome of one run of `retry_async`: the returned value or final error,
the number of times the operation was invoked, and the number of backoff
sleeps performed. -/
structure RetryOutcome (ε α : Type) where
  result : Except ε α
  invocations : Nat
  sleeps : Nat
  deriving Repr

/-- The retry loop of `retry_async` (`for attempt in 0..=config.max_retries`):
on success return immediately; on failure sleep and continue while retries
remain (`attempt < max_retries`, i.e. `remaining > 0`), otherwise return the
last error.  `remaining` is `max_retries - attempt`, kept explicit so the
recursion is structural. -/
def retryLoop (op : Nat → Except ε α) : Nat → Nat → RetryOutcome ε α
  | remaining, attempt =>
    match op attempt with
    | .ok v => ⟨.ok v, attempt + 1, attempt⟩
    | .error e =>
      match remaining with
      | 0 => ⟨.error e, attempt + 1, attempt⟩
      | r + 1 => retryLoop op r (attempt + 1)

/-- `retry_async` from `src/utils/retry.rs`: when `max_retries == 0` the
operation runs exactly once with no retry bookkeeping; otherwise the retry
loop runs from attempt `0` with `max_retries` retries remaining. -/
def retry_async (config : RetryConfig) (op : Nat → Except ε α) :
    RetryOutcome ε α :=
  if config.max_retries = 0 then
    ⟨op 0, 1, 0⟩
  else
    retryLoop op config.max_retries 0

theorem retryLoop_first_success (op : Nat → Except ε α) (v : α) :
    ∀ (r a k : Nat), a ≤ k → k ≤ a + r →
    (∀ j, a ≤ j → j < k → ∃ e, op j = .error e) → op k = .ok v →
    retryLoop op r a = ⟨.ok v, k + 1, k⟩ := by
  intro r
  induction r with
  | zero =>
    intro a k hak hka hfail hok
    have : a = k := by omega
    subst this
    simp [retryLoop, hok]
  | succ n ih =>
    intro a k hak hka hfail hok
    rcases Nat.eq_or_lt_of_le hak with heq | hlt
    · subst heq
      simp [retryLoop, hok]
    · obtain ⟨e, he⟩ := hfail a (le_refl a) hlt
      rw [retryLoop, he]
      exact ih (a + 1) k hlt (by omega)
        (fun j hj₁ hj₂ => hfail j (by omega) hj₂) hok

theorem retryLoop_all_fail (op : Nat → Except ε α) :
    ∀ (r a : Nat) (e : ε),
    (∀ j, a ≤ j → j ≤ a + r → ∃ e', op j = .error e') →
    op (a + r) = .error e →
    retryLoop op r a = ⟨.error e, a + r + 1, a + r⟩ := by
  intro r
  induction r with
  | zero =>
    intro a e hfail hlast
    simp only [Nat.add_zero] at hlast ⊢
    simp [retryLoop, hlast]
  | succ n ih =>
    intro a e hfail hlast
    obtain ⟨e', he'⟩ := hfail a (le_refl a) (by omega)
    rw [retryLoop, he']
    show retryLoop op n (a + 1) = _
    rw [ih (a + 1) e
      (fun j hj₁ hj₂ => hfail j (by omega) (by omega))
      (by rw [show a + 1 + n = a + (n + 1) by omega]; exact hlast)]
    congr 1 <;> omega

theorem retryLoop_invocations_le (op : Nat → Except ε α) :
    ∀ (r a : Nat), (retryLoop op r a).invocations ≤ a + r + 1 := by
  intro r
  induction r with
  | zero =>
    intro a
    rw [retryLoop]
    rcases op a with e | v <;> simp
  | succ n ih =>
    intro a
    rcases hop : op a with e | v
    · rw [retryLoop, hop]
      show (retryLoop op n (a + 1)).invocations ≤ _
      have h := ih (a + 1)
      omega
    · rw [retryLoop, hop]
      show a + 1 ≤ a + (n + 1) + 1
      omega

/-- **C2.** For every `RetryConfig` and every fallible operation,
`retry_async` invokes the operation at most `max_retries + 1` times; if the
first succeeding invocation is attempt `k`, that success is returned after
exactly `k + 1` invocations (no further invocations); if every invocation
fails, the error of the last invocation (attempt `max_retries`) is returned
after exactly `max_retries + 1` invocations; and when `max_retries = 0` the
operation is invoked exactly once with no delay (no sleeps). -/
theorem retry_async_contract (cfg : RetryConfig) (op : Nat → Except ε α) :
    (retry_async cfg op).invocations ≤ cfg.max_retries + 1
    ∧ (∀ k v, k ≤ cfg.max_retries →
        (∀ j, j < k → ∃ e, op j = .error e) → op k = .ok v →
        retry_async cfg op = ⟨.ok v, k + 1, k⟩)
    ∧ (∀ e, (∀ j, j ≤ cfg.max_retries → ∃ e', op j = .error e') →
        op cfg.max_retries = .error e →
        retry_async cfg op =
          ⟨.error e, cfg.max_retries + 1, cfg.max_retries⟩)
    ∧ (cfg.max_retries = 0 →
        retry_async cfg op = ⟨op 0, 1, 0⟩) := by
  unfold retry_async
  by_cases h0 : cfg.max_retries = 0
  · simp only [h0, if_true, reduceIte]
    refine ⟨by simp, ?_, ?_, by trivial⟩
    · intro k v hk hfail hok
      have : k = 0 := by omega
      subst this
      rw [hok]
    · intro e hfail hlast
      rw [hlast]
  · simp only [h0, if_false, reduceIte]
    refine ⟨?_, ?_, ?_, by simp⟩
    · have h := retryLoop_invocations_le op cfg.max_retries 0
      omega
    · intro k v hk hfail hok
      exact retryLoop_first_success op v cfg.max_retries 0 k (Nat.zero_le k)
        (by omega) (fun j _ hj => hfail j hj) hok
    · intro e hfail hlast
      have h := retryLoop_all_fail op cfg.max_retries 0 e
        (fun j _ hj => hfail j (by omega))
        (by rw [Nat.zero_add]; exact hlast)
      rw [h]
      congr 1 <;> omega

/-- Witness for `retry_async_contract`: with `max_retries = 2` and an
operation failing on attempts 0 and 1 and succeeding on attempt 2, the
success is returned after exactly 3 invocations. -/
theorem retry_async_contract_witness :
    retry_async ⟨2, 100⟩
      (fun k => if k < 2 then (Except.error (0 : Nat)) else Except.ok (7 : Nat)) =
      ⟨.ok 7, 3, 2⟩ :=
  (retry_async_contract ⟨2, 100⟩ _).2.1 2 7 (le_refl 2)
    (fun j hj => ⟨0, by simp [hj]⟩) (by norm_num)

/-! ## String utilities used by the verifier embedding

Models of the Rust `str` operations used in
`src/installers/gh_release/verifier.rs`. -/

/-- Rust `str::split_once` with a character-predicate pattern: split at the
first character satisfying `p`, the separator removed.  `splitn(2, c)`
produces two parts exactly when this returns `some`. -/
def splitOncePred (p : Char → Bool) : Str → Option (Str × Str)
  | [] => none
  | c :: rest =>
    if p c then some ([], rest)
    else (splitOncePred p rest).map (fun q => (c :: q.1, q.2))

/-- Rust `str::split_once(sep)` for a character separator. -/
def splitOnceChar (sep : Char) : Str → Option (Str × Str) :=
  splitOncePred (fun a => a = sep)

/-- Rust `str::trim_start`. -/
def trimStart (s : Str) : Str := s.dropWhile Char.isWhitespace

/-- Rust `str::trim_end`. -/
def trimEnd (s : Str) : Str :=
  (s.reverse.dropWhile Char.isWhitespace).reverse

/-- Rust `str::trim`: whitespace removed from both ends. -/
def trim (s : Str) : Str := trimEnd (trimStart s)

/-- Rust `str::to_lowercase` (the algorithm names handled here are ASCII,
where per-character lowering coincides with Unicode lowercasing). -/
def lowerStr (s : Str) : Str := s.map Char.toLower

theorem splitOncePred_eq_none_iff (p : Char → Bool) (s : Str) :
    splitOncePred p s = none ↔ ∀ a ∈ s, p a = false := by
  induction s with
  | nil => simp [splitOncePred]
  | cons c rest ih =>
    by_cases hc : p c
    · simp [splitOncePred, hc]
    · simp [splitOncePred, hc, Option.map_eq_none, ih,
        Bool.eq_false_iff.mpr hc]

theorem splitOncePred_eq_some_iff (p : Char → Bool) (s u v : Str) :
    splitOncePred p s = some (u, v) ↔
      ∃ c, p c = true ∧ s = u ++ c :: v ∧ ∀ a ∈ u, p a = false := by
  induction s generalizing u v with
  | nil =>
    constructor
    · intro h
      exact Option.noConfusion h
    · rintro ⟨c, _, hs, _⟩
      exact absurd hs (by simp)
  | cons b rest ih =>
    cases hb : p b with
    | true =>
      rw [splitOncePred, if_pos (by simp [hb])]
      constructor
      · intro h
        obtain ⟨hu, hv⟩ : ([] : Str) = u ∧ rest = v := by simpa using h
        exact ⟨b, hb, by simp [← hu, ← hv], by simp [← hu]⟩
      · rintro ⟨c, hc, hs, hu⟩
        cases u with
        | nil =>
          simp only [List.nil_append, List.cons.injEq] at hs
          simp [hs.1, hs.2]
        | cons x xs =>
          simp only [List.cons_append, List.cons.injEq] at hs
          have hx := hu x (by simp)
          rw [← hs.1] at hx
          rw [hx] at hb
          exact Bool.noConfusion hb
    | false =>
      rw [splitOncePred, if_neg (by simp [hb])]
      constructor
      · intro h
        rcases hres : splitOncePred p rest with _ | ⟨u2, v2⟩ <;> rw [hres] at h
        · exact Option.noConfusion h
        · obtain ⟨hu, hv⟩ : b :: u2 = u ∧ v2 = v := by simpa using h
          obtain ⟨c, hc, hs, hu2⟩ := (ih u2 v2).mp hres
          refine ⟨c, hc, by simp [← hu, ← hv, hs], ?_⟩
          intro a ha
          rw [← hu] at ha
          rcases List.mem_cons.mp ha with rfl | ha2
          · exact hb
          · exact hu2 a ha2
      · rintro ⟨c, hc, hs, hu⟩
        cases u with
        | nil =>
          simp only [List.nil_append, List.cons.injEq] at hs
          rw [hs.1] at hb
          rw [hb] at hc
          exact Bool.noConfusion hc
        | cons x xs =>
          simp only [List.cons_append, List.cons.injEq] at hs
          have hrec : splitOncePred p rest = some (xs, v) :=
            (ih xs v).mpr ⟨c, hc, hs.2, fun a ha => hu a (by simp [ha])⟩
          rw [hrec]
          simp [hs.1]

theorem splitOnceChar_eq_some_iff (sep : Char) (s u v : Str) :
    splitOnceChar sep s = some (u, v) ↔ s = u ++ sep :: v ∧ sep ∉ u := by
  rw [splitOnceChar, splitOncePred_eq_some_iff]
  constructor
  · rintro ⟨c, hc, hs, hu⟩
    have hcs : c = sep := by simpa using hc
    constructor
    · rw [hs, hcs]
    · intro hmem
      have h2 := hu sep hmem
      simp at h2
  · rintro ⟨hs, hu⟩
    refine ⟨sep, by simp, hs, fun a ha => ?_⟩
    simp only [decide_eq_false_iff_not]
    rintro rfl
    exact hu ha

theorem splitOnceChar_eq_none_iff (sep : Char) (s : Str) :
    splitOnceChar sep s = none ↔ sep ∉ s := by
  rw [splitOnceChar, splitOncePred_eq_none_iff]
  constructor
  · intro h hmem
    have := h sep hmem
    simp at this
  · intro h a ha
    simp only [decide_eq_false_iff_not]
    rintro rfl
    exact h ha

theorem dropWhile_eq_self_of_head (p : Char → Bool) (s : Str)
    (h : ∀ c, s.head? = some c → p c = false) : s.dropWhile p = s := by
  cases s with
  | nil => rfl
  | cons c rest => simp [List.dropWhile, h c rfl]

theorem trimStart_cons_of_ws (c : Char) (s : Str)
    (h : c.isWhitespace = true) : trimStart (c :: s) = trimStart s := by
  simp [trimStart, List.dropWhile, h]

theorem trim_cons_of_ws (c : Char) (s : Str) (h : c.isWhitespace = true) :
    trim (c :: s) = trim s := by
  rw [trim, trim, trimStart_cons_of_ws c s h]

theorem trim_eq_self_of_no_ws (s : Str)
    (h : ∀ c ∈ s, c.isWhitespace = false) : trim s = s := by
  have h1 : trimStart s = s :=
    dropWhile_eq_self_of_head _ s
      (fun c hc => h c (List.mem_of_mem_head? hc))
  rw [trim, h1, trimEnd]
  have h2 : s.reverse.dropWhile Char.isWhitespace = s.reverse :=
    dropWhile_eq_self_of_head _ s.reverse
      (fun c hc => h c (by
        have := List.mem_of_mem_head? hc
        exact List.mem_reverse.mp this))
  rw [h2, List.reverse_reverse]

/-! ## `src/installers/gh_release/verifier.rs` — checksum text parsing -/

/-- Error raised by `parse_checksum_text` (taxonomy kind
InvalidChecksumFormat). -/
inductive ChecksumTextErr
  | invalidChecksumFormat
  deriving Repr, DecidableEq

/-- `parse_checksum_text` from `src/installers/gh_release/verifier.rs`:
split with `splitn(2, ':')`, lowercase the algorithm part, trim the hash
part, and accept only `sha256` with a 64-character hash or `sha512` with a
128-character hash; everything else is InvalidChecksumFormat. -/
def parse_checksum_text (checksumText : Str) :
    Except ChecksumTextErr (Str × Str) :=
  match splitOnceChar ':' checksumText with
  | none => .error .invalidChecksumFormat
  | some (algPart, hashPart) =>
    let algorithm := lowerStr algPart
    let hash := trim hashPart
    if algorithm = "sha256".data ∧ hash.length = 64 then
      .ok (algorithm, hash)
    else if algorithm = "sha512".data ∧ hash.length = 128 then
      .ok (algorithm, hash)
    else
      .error .invalidChecksumFormat

/-- A hexadecimal digit (`0-9`, `a-f`, `A-F`). -/
def isHexChar (c : Char) : Bool :=
  c.isDigit || ('a' ≤ c && c ≤ 'f') || ('A' ≤ c && c ≤ 'F')

/-- **C3 counterexample.** `parse_checksum_text` does not validate that the
digest consists of hex characters: `sha256:` followed by 64 letters `z`
parses successfully, refuting "succeeds exactly when the algorithm is sha256
with a 64-character hex digest or sha512 with a 128-character hex digest". -/
theorem parse_checksum_text_accepts_nonhex_digest :
    parse_checksum_text ("sha256:".data ++ List.replicate 64 'z') =
      .ok ("sha256".data, List.replicate 64 'z')
    ∧ isHexChar 'z' = false
    ∧ 'z' ∈ List.replicate 64 'z' := by
  refine ⟨rfl, rfl, ?_⟩
  simp

/-- **C3 (amended).** `parse_checksum_text` succeeds exactly when the input
splits at its first colon into `algorithm` and `rest` such that the
lowercased algorithm is `sha256` and the trimmed rest has exactly 64
characters, or `sha512` with exactly 128 characters; the digest characters
are not required to be hexadecimal.  Every other input (in particular any
other algorithm name or digest length) fails with InvalidChecksumFormat,
the only error this parser produces. -/
theorem parse_checksum_text_spec (s alg hash : Str) :
    (parse_checksum_text s = .ok (alg, hash) ↔
      ∃ a rest, s = a ++ ':' :: rest ∧ ':' ∉ a ∧
        alg = lowerStr a ∧ hash = trim rest ∧
        ((alg = "sha256".data ∧ hash.length = 64) ∨
         (alg = "sha512".data ∧ hash.length = 128)))
    ∧ (∀ e, parse_checksum_text s = .error e →
        e = .invalidChecksumFormat) := by
  constructor
  · constructor
    · intro h
      rw [parse_checksum_text] at h
      rcases hsp : splitOnceChar ':' s with _ | ⟨a, rest⟩ <;> rw [hsp] at h
      · exact Except.noConfusion h
      · obtain ⟨hs, hnotin⟩ := (splitOnceChar_eq_some_iff ':' s a rest).mp hsp
        simp only at h
        by_cases h1 : lowerStr a = "sha256".data ∧ (trim rest).length = 64
        · rw [if_pos h1] at h
          obtain ⟨halg, hhash⟩ : lowerStr a = alg ∧ trim rest = hash := by
            simpa using h
          exact ⟨a, rest, hs, hnotin, halg.symm, hhash.symm,
            Or.inl ⟨halg ▸ h1.1, hhash ▸ h1.2⟩⟩
        · rw [if_neg h1] at h
          by_cases h2 : lowerStr a = "sha512".data ∧ (trim rest).length = 128
          · rw [if_pos h2] at h
            obtain ⟨halg, hhash⟩ : lowerStr a = alg ∧ trim rest = hash := by
              simpa using h
            exact ⟨a, rest, hs, hnotin, halg.symm, hhash.symm,
              Or.inr ⟨halg ▸ h2.1, hhash ▸ h2.2⟩⟩
          · rw [if_neg h2] at h
            exact Except.noConfusion h
    · rintro ⟨a, rest, rfl, hnotin, rfl, rfl, hcase⟩
      have hsp : splitOnceChar ':' (a ++ ':' :: rest) = some (a, rest) :=
        (splitOnceChar_eq_some_iff ':' _ a rest).mpr ⟨rfl, hnotin⟩
      rw [parse_checksum_text, hsp]
      rcases hcase with ⟨h1, h2⟩ | ⟨h1, h2⟩
      · have hcond : lowerStr a = "sha256".data ∧ (trim rest).length = 64 :=
          ⟨h1, h2⟩
        simp only [if_pos hcond]
      · have hne : ¬(lowerStr a = "sha256".data ∧ (trim rest).length = 64) := by
          rintro ⟨ha, _⟩
          rw [h1] at ha
          exact absurd ha (by decide)
        have hcond : lowerStr a = "sha512".data ∧ (trim rest).length = 128 :=
          ⟨h1, h2⟩
        simp only [if_neg hne, if_pos hcond]
  · intro e _
    cases e
    rfl

/-- Witness for `parse_checksum_text_spec`: `sha256:` followed by 64 `a`
characters parses to `("sha256", digest)`. -/
theorem parse_checksum_text_spec_witness :
    parse_checksum_text ("sha256:".data ++ List.replicate 64 'a') =
      .ok ("sha256".data, List.replicate 64 'a') :=
  (parse_checksum_text_spec ("sha256:".data ++ List.replicate 64 'a')
      "sha256".data (List.replicate 64 'a')).1.mpr
    ⟨"sha256".data, List.replicate 64 'a', by decide, by decide, by decide,
      by decide, Or.inl ⟨rfl, by decide⟩⟩

/-! ## `src/installers/gh_release/verifier.rs` — checksum file parsing -/

/-- `parse_checksum_line_format` from
`src/installers/gh_release/verifier.rs`: first try `filename: hash`
(`split_once(':')`, both parts trimmed, returned only if both are
non-empty); on failure fall through to `hash  filename`
(`split_once(char::is_whitespace)`, leading `*` stripped from the filename,
then trimmed).  Returns `(hash, filename)`. -/
def parse_checksum_line_format (line : Str) : Option (Str × Str) :=
  let colonAttempt : Option (Str × Str) :=
    match splitOnceChar ':' line with
    | some (filenamePart, hashPart) =>
      let filename := trim filenamePart
      let hash := trim hashPart
      if hash ≠ [] ∧ filename ≠ [] then some (hash, filename) else none
    | none => none
  match colonAttempt with
  | some result => some result
  | none =>
    match splitOncePred Char.isWhitespace line with
    | some (hash, rest) =>
      let filename := trim (rest.dropWhile (fun c => c = '*'))
      if hash ≠ [] ∧ filename ≠ [] then some (hash, filename) else none
    | none => none

/-- `detect_algorithm_from_hash` from
`src/installers/gh_release/verifier.rs`: 64 characters is sha256, 128 is
sha512, anything else defaults to sha256. -/
def detect_algorithm_from_hash (hash : Str) : Str :=
  if hash.length = 64 then "sha256".data
  else if hash.length = 128 then "sha512".data
  else "sha256".data

/-- The line loop of `parse_checksum_file`: trim each line, skip empty lines
and `#` comments, parse the rest, recording
`(filename, algorithm, hash)` with the algorithm inferred by
`detect_algorithm_from_hash`.  The content is modelled already split into
lines (Rust `content.lines()`). -/
def parseChecksumLines : List Str → List (Str × Str × Str)
  | [] => []
  | l :: ls =>
    let line := trim l
    if line = [] then parseChecksumLines ls
    else if line.head? = some '#' then parseChecksumLines ls
    else
      match parse_checksum_line_format line with
      | some (hash, filename) =>
        (filename, detect_algorithm_from_hash hash, hash) ::
          parseChecksumLines ls
      | none => parseChecksumLines ls

/-- Error raised by `parse_checksum_file` when no line parses. -/
inductive ChecksumFileErr
  | noValidChecksums
  deriving Repr, DecidableEq

/-- `parse_checksum_file` from `src/installers/gh_release/verifier.rs`:
collect the parsed entries; fail if none were found.  The Rust `HashMap`
is modelled as the entry list, where lookup takes the most recent (last)
binding for a filename, matching insert-replaces semantics. -/
def parse_checksum_file (lines : List Str) :
    Except ChecksumFileErr (List (Str × Str × Str)) :=
  let checksums := parseChecksumLines lines
  if checksums = [] then .error .noValidChecksums else .ok checksums

/-- `HashMap::get` on the entry-list model: the most recent binding wins. -/
def checksumsGet (entries : List (Str × Str × Str)) (key : Str) :
    Option (Str × Str) :=
  (entries.reverse.find? (fun e => e.1 = key)).map (fun e => e.2)

theorem trim_space_cons (s : Str) (h : trim s = s) : trim (' ' :: s) = s := by
  rw [trim_cons_of_ws ' ' s rfl, h]

/-- **C4.** Checksum-file line parsing accepts `hash  filename`,
`hash *filename` (leading `*` stripped) and `filename: hash`, producing
`(hash, filename)` in each case; and the algorithm recorded for every entry
of a parsed checksum file is inferred from the digest length alone:
64 characters gives sha256, 128 gives sha512, any other length defaults to
sha256. -/
theorem checksum_line_and_algorithm_spec (hash filename : Str)
    (hhne : hash ≠ []) (hfne : filename ≠ [])
    (hhchar : ∀ c ∈ hash, c.isWhitespace = false ∧ c ≠ ':')
    (hfcolon : ':' ∉ filename)
    (hftrim : trim filename = filename)
    (hfstar : filename.head? ≠ some '*') :
    parse_checksum_line_format (hash ++ ' ' :: ' ' :: filename) =
      some (hash, filename)
    ∧ parse_checksum_line_format (hash ++ ' ' :: '*' :: filename) =
      some (hash, filename)
    ∧ parse_checksum_line_format (filename ++ ':' :: ' ' :: hash) =
      some (hash, filename)
    ∧ (∀ h : Str,
        (h.length = 64 → detect_algorithm_from_hash h = "sha256".data)
        ∧ (h.length = 128 → detect_algorithm_from_hash h = "sha512".data)
        ∧ (h.length ≠ 64 → h.length ≠ 128 →
            detect_algorithm_from_hash h = "sha256".data))
    ∧ (∀ lines entry, entry ∈ parseChecksumLines lines →
        entry.2.1 = detect_algorithm_from_hash entry.2.2) := by
  have htrimhash : trim hash = hash :=
    trim_eq_self_of_no_ws hash (fun c hc => (hhchar c hc).1)
  have hkey : ∀ line tail : Str,
      splitOnceChar ':' line = none →
      splitOncePred Char.isWhitespace line = some (hash, tail) →
      trim (tail.dropWhile (fun c => c = '*')) = filename →
      parse_checksum_line_format line = some (hash, filename) := by
    intro line tail hc hws htail
    rw [parse_checksum_line_format]
    simp only [hc, hws, htail]
    have hcond : hash ≠ [] ∧ filename ≠ [] := ⟨hhne, hfne⟩
    rw [if_pos hcond]
  have hspace : (' ' : Char).isWhitespace = true := by decide
  refine ⟨?_, ?_, ?_, ?_, ?_⟩
  · -- `hash  filename`
    refine hkey _ (' ' :: filename) ?_ ?_ ?_
    · refine (splitOnceChar_eq_none_iff ':' _).mpr ?_
      intro hmem
      rcases List.mem_append.mp hmem with hmem | hmem
      · exact (hhchar _ hmem).2 rfl
      · rcases List.mem_cons.mp hmem with heq | hmem
        · exact absurd heq (by decide)
        · rcases List.mem_cons.mp hmem with heq | hmem
          · exact absurd heq (by decide)
          · exact hfcolon hmem
    · exact (splitOncePred_eq_some_iff _ _ hash (' ' :: filename)).mpr
        ⟨' ', hspace, rfl, fun a ha => (hhchar a ha).1⟩
    · have hdw : List.dropWhile (fun c => c = '*') (' ' :: filename) =
          ' ' :: filename :=
        dropWhile_eq_self_of_head _ _ (fun c hc => by
          have hcc : c = ' ' := by simpa using hc.symm
          subst hcc
          decide)
      rw [hdw]
      exact trim_space_cons filename hftrim
  · -- `hash *filename`
    refine hkey _ ('*' :: filename) ?_ ?_ ?_
    · refine (splitOnceChar_eq_none_iff ':' _).mpr ?_
      intro hmem
      rcases List.mem_append.mp hmem with hmem | hmem
      · exact (hhchar _ hmem).2 rfl
      · rcases List.mem_cons.mp hmem with heq | hmem
        · exact absurd heq (by decide)
        · rcases List.mem_cons.mp hmem with heq | hmem
          · exact absurd heq (by decide)
          · exact hfcolon hmem
    · exact (splitOncePred_eq_some_iff _ _ hash ('*' :: filename)).mpr
        ⟨' ', hspace, rfl, fun a ha => (hhchar a ha).1⟩
    · have hdw1 : List.dropWhile (fun c => c = '*') ('*' :: filename) =
          List.dropWhile (fun c => c = '*') filename := by
        simp [List.dropWhile]
      have hdw2 : List.dropWhile (fun c => c = '*') filename = filename :=
        dropWhile_eq_self_of_head _ _ (fun c hc => by
          simp only [decide_eq_false_iff_not]
          intro hstar
          rw [hstar] at hc
          exact hfstar hc)
      rw [hdw1, hdw2, hftrim]
  · -- `filename: hash`
    have hsp : splitOnceChar ':' (filename ++ ':' :: ' ' :: hash) =
        some (filename, ' ' :: hash) :=
      (splitOnceChar_eq_some_iff ':' _ filename (' ' :: hash)).mpr
        ⟨rfl, hfcolon⟩
    rw [parse_checksum_line_format]
    simp only [hsp, hftrim, trim_space_cons hash htrimhash]
    have hcond : hash ≠ [] ∧ filename ≠ [] := ⟨hhne, hfne⟩
    rw [if_pos hcond]
  · -- algorithm inference from digest length
    intro h
    refine ⟨?_, ?_, ?_⟩
    · intro hl
      rw [detect_algorithm_from_hash, if_pos hl]
    · intro hl
      rw [detect_algorithm_from_hash, if_neg (by omega), if_pos hl]
    · intro hl1 hl2
      rw [detect_algorithm_from_hash, if_neg hl1, if_neg hl2]
  · -- every recorded entry uses the inferred algorithm
    intro lines
    induction lines with
    | nil =>
      intro entry hmem
      simp [parseChecksumLines] at hmem
    | cons l ls ih =>
      intro entry hmem
      rw [parseChecksumLines] at hmem
      by_cases h1 : trim l = []
      · rw [if_pos h1] at hmem
        exact ih entry hmem
      · rw [if_neg h1] at hmem
        by_cases h2 : (trim l).head? = some '#'
        · rw [if_pos h2] at hmem
          exact ih entry hmem
        · rw [if_neg h2] at hmem
          rcases hp : parse_checksum_line_format (trim l) with _ | ⟨hsh, fn⟩ <;>
            rw [hp] at hmem
          · exact ih entry hmem
          · rcases List.mem_cons.mp hmem with rfl | hmem2
            · rfl
            · exact ih entry hmem2

/-- Witness for `checksum_line_and_algorithm_spec` on the spec's own
examples: `abc123  filename.tar.gz`, `abc123 *filename.tar.gz` and
`filename.tar.gz: abc123` all parse to `("abc123", "filename.tar.gz")`. -/
theorem checksum_line_and_algorithm_spec_witness :
    parse_checksum_line_format "abc123  filename.tar.gz".data =
      some ("abc123".data, "filename.tar.gz".data)
    ∧ parse_checksum_line_format "abc123 *filename.tar.gz".data =
      some ("abc123".data, "filename.tar.gz".data)
    ∧ parse_checksum_line_format "filename.tar.gz: abc123".data =
      some ("abc123".data, "filename.tar.gz".data) := by
  have h := checksum_line_and_algorithm_spec "abc123".data
    "filename.tar.gz".data (by decide) (by decide) (by decide) (by decide)
    (by decide) (by decide)
  exact ⟨h.1, h.2.1, h.2.2.1⟩

/-! ## `src/installers/gh_release/selector.rs` — platform selection

The architecture and operating-system regexes are chosen from
`std::env::consts` at runtime; they enter the embedding as match predicates
on asset names (`archMatch`, `osMatch`).  The archive / platform-binary
classification is embedded concretely. -/

/-- A release asset (`octocrab` `Asset`): its name and download URL. -/
structure Asset where
  name : Str
  browser_download_url : Str
  deriving Repr, DecidableEq

/-- `is_archive` from `src/installers/gh_release/selector.rs` (the extractor
has an identical copy): recognized archive filename suffixes. -/
def is_archive (filename : Str) : Bool :=
  List.isSuffixOf ".tar.gz".data filename
  || List.isSuffixOf ".tgz".data filename
  || List.isSuffixOf ".tar.xz".data filename
  || List.isSuffixOf ".zip".data filename
  || List.isSuffixOf ".tar.bz2".data filename
  || List.isSuffixOf ".7z".data filename

/-- Rust `str::contains(&str)`: substring containment. -/
def containsSub (needle : Str) : Str → Bool
  | [] => needle.isEmpty
  | c :: rest => List.isPrefixOf needle (c :: rest) || containsSub needle rest

/-- `is_platform_binary` from `src/installers/gh_release/selector.rs`: the
lowercased name mentions an OS or architecture token, is not an archive, and
does not end in `.sig` or `.asc`. -/
def is_platform_binary (filename : Str) : Bool :=
  let lower := lowerStr filename
  let has_platform_info :=
    containsSub "linux".data lower
    || containsSub "darwin".data lower
    || containsSub "windows".data lower
    || containsSub "x86_64".data lower
    || containsSub "amd64".data lower
    || containsSub "arm64".data lower
    || containsSub "aarch64".data lower
  let is_not_archive := ! is_archive lower
  let is_not_signature :=
    ! List.isSuffixOf ".sig".data lower && ! List.isSuffixOf ".asc".data lower
  has_platform_info && is_not_archive && is_not_signature

/-- The per-asset test of `select_any_archive`: archive or platform-tagged
raw binary. -/
def fallbackQual (a : Asset) : Bool :=
  is_archive (lowerStr a.name) || is_platform_binary a.name

/-- The per-asset test of `select_by_platform`: name matches the arch regex
and the OS regex, and the asset is an archive or platform-tagged raw
binary. -/
def platformQual (archMatch osMatch : Str → Bool) (a : Asset) : Bool :=
  archMatch a.name && osMatch a.name && fallbackQual a

/-- `select_by_platform` from `src/installers/gh_release/selector.rs`:
first asset (in list order) passing the combined arch + OS + type test. -/
def select_by_platform (archMatch osMatch : Str → Bool)
    (assets : List Asset) : Option Asset :=
  assets.find? (platformQual archMatch osMatch)

/-- `select_any_archive` from `src/installers/gh_release/selector.rs`:
first asset that is an archive or a platform-tagged raw binary. -/
def select_any_archive (assets : List Asset) : Option Asset :=
  assets.find? fallbackQual

/-- Error raised by `PlatformSelector::select` (taxonomy kind
NoSuitableAsset). -/
inductive SelectorErr
  | noSuitableAsset
  deriving Repr, DecidableEq

/-- `PlatformSelector::select` from
`src/installers/gh_release/selector.rs`: platform match, `or_else` the
any-archive fallback, `context` the NoSuitableAsset error. -/
def platform_selector_select (archMatch osMatch : Str → Bool)
    (assets : List Asset) : Except SelectorErr Asset :=
  match select_by_platform archMatch osMatch assets with
  | some a => .ok a
  | none =>
    match select_any_archive assets with
    | some a => .ok a
    | none => .error .noSuitableAsset

/-- **C5.** `PlatformSelector` returns the earliest asset (in list order)
matching arch + OS + type; failing that, the earliest asset that is an
archive or platform-tagged raw binary ignoring arch/OS; failing that, the
error NoSuitableAsset.  First qualifying asset in list order wins — the
characterization below is purely positional, so no scoring or ranking is
involved. -/
theorem platform_selector_select_spec (archMatch osMatch : Str → Bool)
    (assets : List Asset) :
    (∀ a, platform_selector_select archMatch osMatch assets = .ok a ↔
      ((platformQual archMatch osMatch a = true ∧
        ∃ i : Nat, ∃ h : i < assets.length, assets[i] = a ∧
          ∀ j : Nat, (hj : j < i) →
            platformQual archMatch osMatch assets[j] = false)
      ∨ ((∀ b ∈ assets, platformQual archMatch osMatch b = false) ∧
          fallbackQual a = true ∧
          ∃ i : Nat, ∃ h : i < assets.length, assets[i] = a ∧
            ∀ j : Nat, (hj : j < i) → fallbackQual assets[j] = false)))
    ∧ (platform_selector_select archMatch osMatch assets =
        .error .noSuitableAsset ↔
        ∀ b ∈ assets, fallbackQual b = false) := by
  have hq12 : ∀ b, fallbackQual b = false →
      platformQual archMatch osMatch b = false := by
    intro b hb
    simp [platformQual, hb]
  have hfind1 : ∀ a, select_by_platform archMatch osMatch assets = some a ↔
      (platformQual archMatch osMatch a = true ∧
        ∃ i : Nat, ∃ h : i < assets.length, assets[i] = a ∧
          ∀ j : Nat, (hj : j < i) →
            platformQual archMatch osMatch assets[j] = false) := by
    intro a
    rw [select_by_platform, List.find?_eq_some_iff_getElem]
    constructor
    · rintro ⟨hp, i, h, hi, hj⟩
      exact ⟨hp, i, h, hi, fun j hjlt => by simpa using hj j hjlt⟩
    · rintro ⟨hp, i, h, hi, hj⟩
      exact ⟨hp, i, h, hi, fun j hjlt => by simpa using hj j hjlt⟩
  have hfind2 : ∀ a, select_any_archive assets = some a ↔
      (fallbackQual a = true ∧
        ∃ i : Nat, ∃ h : i < assets.length, assets[i] = a ∧
          ∀ j : Nat, (hj : j < i) → fallbackQual assets[j] = false) := by
    intro a
    rw [select_any_archive, List.find?_eq_some_iff_getElem]
    constructor
    · rintro ⟨hp, i, h, hi, hj⟩
      exact ⟨hp, i, h, hi, fun j hjlt => by simpa using hj j hjlt⟩
    · rintro ⟨hp, i, h, hi, hj⟩
      exact ⟨hp, i, h, hi, fun j hjlt => by simpa using hj j hjlt⟩
  rcases h1 : select_by_platform archMatch osMatch assets with _ | b
  · have hall1 : ∀ b ∈ assets, platformQual archMatch osMatch b = false := by
      intro b hb
      have := List.find?_eq_none.mp h1 b hb
      simpa using this
    rcases h2 : select_any_archive assets with _ | c
    · have hall2 : ∀ b ∈ assets, fallbackQual b = false := by
        intro b hb
        have := List.find?_eq_none.mp h2 b hb
        simpa using this
      constructor
      · intro a
        rw [platform_selector_select, h1, h2]
        constructor
        · intro h
          exact Except.noConfusion h
        · rintro (⟨hp, i, h, hi, _⟩ | ⟨_, hp, i, h, hi, _⟩)
          · rw [hall1 a (hi ▸ List.getElem_mem h)] at hp
            exact Bool.noConfusion hp
          · rw [hall2 a (hi ▸ List.getElem_mem h)] at hp
            exact Bool.noConfusion hp
      · rw [platform_selector_select, h1, h2]
        exact ⟨fun _ => hall2, fun _ => rfl⟩
    · constructor
      · intro a
        rw [platform_selector_select, h1, h2]
        constructor
        · intro h
          have hac : c = a := by simpa using h
          subst hac
          exact Or.inr ⟨hall1, (hfind2 c).mp h2⟩
        · rintro (⟨hp, i, h, hi, _⟩ | hr)
          · rw [hall1 a (hi ▸ List.getElem_mem h)] at hp
            exact Bool.noConfusion hp
          · have := (hfind2 a).mpr ⟨hr.2.1, hr.2.2⟩
            rw [h2] at this
            simpa using this
      · rw [platform_selector_select, h1, h2]
        constructor
        · intro h
          exact Except.noConfusion h
        · intro hall2
          obtain ⟨hp, i, h, hi, _⟩ := (hfind2 c).mp h2
          rw [hall2 c (hi ▸ List.getElem_mem h)] at hp
          exact Bool.noConfusion hp
  · constructor
    · intro a
      rw [platform_selector_select, h1]
      constructor
      · intro h
        have hab : b = a := by simpa using h
        subst hab
        exact Or.inl ((hfind1 b).mp h1)
      · rintro (hl | ⟨hall1, _⟩)
        · have := (hfind1 a).mpr hl
          rw [h1] at this
          simpa using this
        · obtain ⟨hp, i, h, hi, _⟩ := (hfind1 b).mp h1
          rw [hall1 b (hi ▸ List.getElem_mem h)] at hp
          exact Bool.noConfusion hp
    · rw [platform_selector_select, h1]
      constructor
      · intro h
        exact Except.noConfusion h
      · intro hall2
        obtain ⟨hp, i, h, hi, _⟩ := (hfind1 b).mp h1
        rw [hq12 b (hall2 b (hi ▸ List.getElem_mem h))] at hp
        exact Bool.noConfusion hp

/-- Witness for `platform_selector_select_spec`: with an `amd64` arch
predicate and a `linux` OS predicate, a list holding a Windows zip, a
signature file and a Linux tar.gz selects the Linux archive — the earliest
asset passing the combined test. -/
theorem platform_selector_select_spec_witness :
    platform_selector_select
      (containsSub "amd64".data) (containsSub "linux".data)
      [⟨"tool-windows-amd64.zip".data, "".data⟩,
       ⟨"tool-linux-amd64.tar.gz.asc".data, "".data⟩,
       ⟨"tool-linux-amd64.tar.gz".data, "".data⟩] =
      .ok ⟨"tool-linux-amd64.tar.gz".data, "".data⟩ :=
  (platform_selector_select_spec _ _ _).1 _ |>.mpr
    (Or.inl ⟨by decide, 2, by decide, by decide, fun j hj => by
      interval_cases j
      · exact (by decide : platformQual (containsSub "amd64".data)
          (containsSub "linux".data)
          ⟨"tool-windows-amd64.zip".data, "".data⟩ = false)
      · exact (by decide : platformQual (containsSub "amd64".data)
          (containsSub "linux".data)
          ⟨"tool-linux-amd64.tar.gz.asc".data, "".data⟩ = false)⟩)

/-! ## `src/installers/gh_release/extractor.rs` — classification and
extraction

Archive decoding (flate2 / xz / tar) is external; the embedding models the
decoded archive as its list of entries, and the filesystem as explicit
state.  Executable-permission setting is not tracked. -/

/-- Errors raised by the extractor (taxonomy kinds UnsupportedArchiveFormat
and NoBinaryNameSpecified). -/
inductive ExtractErr
  | unsupportedArchiveFormat
  | noBinaryNameSpecified
  deriving Repr, DecidableEq

/-- The two archive decode paths of `extract_archive`. -/
inductive ArchiveFormat
  | tarXz
  | tarGz
  deriving Repr, DecidableEq

/-- `is_tar_xz_archive` from `src/installers/gh_release/extractor.rs`:
at least 6 bytes beginning `0xFD` then `7zXZ\x00`
(`0x37 0x7A 0x58 0x5A 0x00`). -/
def is_tar_xz_archive (data : Bytes) : Bool :=
  match data with
  | b0 :: b1 :: b2 :: b3 :: b4 :: b5 :: _ =>
    b0 = 0xFD && b1 = 0x37 && b2 = 0x7A && b3 = 0x58 && b4 = 0x5A && b5 = 0x00
  | _ => false

/-- `is_gzip_archive` from `src/installers/gh_release/extractor.rs`:
at least 2 bytes beginning `0x1F 0x8B`. -/
def is_gzip_archive (data : Bytes) : Bool :=
  match data with
  | b0 :: b1 :: _ => b0 = 0x1F && b1 = 0x8B
  | _ => false

/-- The content-sniffing dispatch of `extract_archive`: xz magic first, then
gzip magic, otherwise UnsupportedArchiveFormat — the asset's filename
extension plays no role here. -/
def extract_archive_format (archiveData : Bytes) :
    Except ExtractErr ArchiveFormat :=
  if is_tar_xz_archive archiveData then .ok .tarXz
  else if is_gzip_archive archiveData then .ok .tarGz
  else .error .unsupportedArchiveFormat

theorem is_gzip_archive_iff (data : Bytes) :
    is_gzip_archive data = true ↔ data.take 2 = [0x1F, 0x8B] := by
  match data with
  | [] => simp [is_gzip_archive]
  | [b0] => simp [is_gzip_archive]
  | b0 :: b1 :: rest => simp [is_gzip_archive]

theorem is_tar_xz_archive_iff (data : Bytes) :
    is_tar_xz_archive data = true ↔
      data.take 6 = [0xFD, 0x37, 0x7A, 0x58, 0x5A, 0x00] := by
  match data with
  | [] => simp [is_tar_xz_archive]
  | [b0] => simp [is_tar_xz_archive]
  | [b0, b1] => simp [is_tar_xz_archive]
  | [b0, b1, b2] => simp [is_tar_xz_archive]
  | [b0, b1, b2, b3] => simp [is_tar_xz_archive]
  | [b0, b1, b2, b3, b4] => simp [is_tar_xz_archive]
  | b0 :: b1 :: b2 :: b3 :: b4 :: b5 :: rest =>
    simp [is_tar_xz_archive, and_assoc]

/-- **C6.** Archive extraction classifies the downloaded bytes by content:
leading bytes `0x1F 0x8B` take the gzip-tar path, the xz magic
`0xFD 7zXZ\x00` takes the xz-tar path, and any other leading bytes fail
with UnsupportedArchiveFormat, whatever the asset was named. -/
theorem extract_archive_format_spec (data : Bytes) :
    (data.take 2 = [0x1F, 0x8B] →
      extract_archive_format data = .ok .tarGz)
    ∧ (data.take 6 = [0xFD, 0x37, 0x7A, 0x58, 0x5A, 0x00] →
      extract_archive_format data = .ok .tarXz)
    ∧ (data.take 2 ≠ [0x1F, 0x8B] →
      data.take 6 ≠ [0xFD, 0x37, 0x7A, 0x58, 0x5A, 0x00] →
      extract_archive_format data = .error .unsupportedArchiveFormat) := by
  refine ⟨?_, ?_, ?_⟩
  · intro hgz
    have hxz : is_tar_xz_archive data = false := by
      cases hb : is_tar_xz_archive data with
      | false => rfl
      | true =>
        have h6 := (is_tar_xz_archive_iff data).mp hb
        have h2 := congrArg (List.take 2) h6
        rw [List.take_take] at h2
        norm_num at h2
        rw [hgz] at h2
        simp at h2
    rw [extract_archive_format]
    simp [hxz, (is_gzip_archive_iff data).mpr hgz]
  · intro hxz
    rw [extract_archive_format]
    simp [(is_tar_xz_archive_iff data).mpr hxz]
  · intro hgz hxz
    have hb1 : is_tar_xz_archive data = false := by
      cases hb : is_tar_xz_archive data with
      | false => rfl
      | true => exact absurd ((is_tar_xz_archive_iff data).mp hb) hxz
    have hb2 : is_gzip_archive data = false := by
      cases hb : is_gzip_archive data with
      | false => rfl
      | true => exact absurd ((is_gzip_archive_iff data).mp hb) hgz
    rw [extract_archive_format]
    simp [hb1, hb2]

/-- Witness for `extract_archive_format_spec`: bytes beginning
`0x1F 0x8B` classify as gzip, plain text bytes are rejected. -/
theorem extract_archive_format_spec_witness :
    extract_archive_format [0x1F, 0x8B, 0x08, 0x00] = .ok .tarGz
    ∧ extract_archive_format [0x50, 0x4B, 0x03, 0x04] =
      .error .unsupportedArchiveFormat :=
  ⟨(extract_archive_format_spec [0x1F, 0x8B, 0x08, 0x00]).1 (by decide),
   (extract_archive_format_spec [0x50, 0x4B, 0x03, 0x04]).2.2
     (by decide) (by decide)⟩

/-- A decoded tar entry, reduced to what the extractor inspects: the base
file name of the entry path (`entry.path().file_name()`, empty when
absent). -/
structure TarEntry where
  fileName : Str
  deriving Repr, DecidableEq

/-- The entry loop of `extract_tar_gz`: install every entry whose base file
name equals one of the requested binary names; entries matching nothing are
passed over without any error.  Returns the installed file names. -/
def installMatches (binaryNames : List Str) : List TarEntry → List Str
  | [] => []
  | e :: rest =>
    if binaryNames.any (fun name => name = e.fileName) then
      e.fileName :: installMatches binaryNames rest
    else
      installMatches binaryNames rest

/-- `extract_tar_gz` from `src/installers/gh_release/extractor.rs` after a
successful gzip/tar decode yielding `entries`: iterate the entries,
install the matching ones, and return `Ok(())` unconditionally. -/
def extract_tar_gz_entries (entries : List TarEntry)
    (binaryNames : List Str) : Except ExtractErr Unit × List Str :=
  (.ok (), installMatches binaryNames entries)

/-- The walk loop of `find_and_install_binaries` (xz path) over the base
file names of the unpacked files: copy every file whose name matches a
requested binary name. -/
def installWalk (binaryNames : List Str) : List Str → List Str
  | [] => []
  | f :: rest =>
    if binaryNames.any (fun name => name = f) then
      f :: installWalk binaryNames rest
    else
      installWalk binaryNames rest

/-- `find_and_install_binaries` from
`src/installers/gh_release/extractor.rs` on the unpacked file list:
installs the matches and returns `Ok(())` unconditionally. -/
def find_and_install_binaries (files : List Str)
    (binaryNames : List Str) : Except ExtractErr Unit × List Str :=
  (.ok (), installWalk binaryNames files)

/-- **C8.** When decoding succeeds, both tar extraction paths return
success regardless of whether the requested binary names occur in the
archive; missing binaries are silently skipped, and when nothing matches
the call succeeds with zero binaries installed. -/
theorem extract_missing_binaries_silent (entries : List TarEntry)
    (files : List Str) (binaryNames : List Str) :
    (extract_tar_gz_entries entries binaryNames).1 = .ok ()
    ∧ (find_and_install_binaries files binaryNames).1 = .ok ()
    ∧ ((∀ e ∈ entries, e.fileName ∉ binaryNames) →
        (extract_tar_gz_entries entries binaryNames).2 = [])
    ∧ ((∀ f ∈ files, f ∉ binaryNames) →
        (find_and_install_binaries files binaryNames).2 = []) := by
  refine ⟨rfl, rfl, ?_, ?_⟩
  · intro hnone
    show installMatches binaryNames entries = []
    induction entries with
    | nil => rfl
    | cons e rest ih =>
      rw [installMatches]
      have hany : binaryNames.any (fun name => name = e.fileName) = false := by
        rw [List.any_eq_false]
        intro n hn
        simp only [decide_eq_true_eq]
        rintro rfl
        exact hnone e (by simp) hn
      rw [hany]
      simp only [Bool.false_eq_true, if_false, reduceIte]
      exact ih (fun e2 h2 => hnone e2 (by simp [h2]))
  · intro hnone
    show installWalk binaryNames files = []
    induction files with
    | nil => rfl
    | cons f rest ih =>
      rw [installWalk]
      have hany : binaryNames.any (fun name => name = f) = false := by
        rw [List.any_eq_false]
        intro n hn
        simp only [decide_eq_true_eq]
        rintro rfl
        exact hnone n (by simp) hn
      rw [hany]
      simp only [Bool.false_eq_true, if_false, reduceIte]
      exact ih (fun f2 h2 => hnone f2 (by simp [h2]))

/-- Witness for `extract_missing_binaries_silent`: an archive holding only
`README` with requested binary `tool` extracts successfully with nothing
installed. -/
theorem extract_missing_binaries_silent_witness :
    (extract_tar_gz_entries [⟨"README".data⟩] ["tool".data]).1 = .ok ()
    ∧ (extract_tar_gz_entries [⟨"README".data⟩] ["tool".data]).2 = [] :=
  ⟨(extract_missing_binaries_silent [⟨"README".data⟩] [] ["tool".data]).1,
   (extract_missing_binaries_silent [⟨"README".data⟩] [] ["tool".data]).2.2.1
     (by decide)⟩

/-! ## `src/installers/gh_release/extractor.rs` — raw-binary path -/

/-- Filesystem state: the directories created and the files written. -/
structure FileSystem where
  dirs : List Str
  files : List (Str × Bytes)
  deriving Repr, DecidableEq

/-- `fs::create_dir_all`: record the directory (missing parents are created
by the same call; the embedding records the full path). -/
def create_dir_all (dir : Str) (fs : FileSystem) : FileSystem :=
  if dir ∈ fs.dirs then fs else { fs with dirs := dir :: fs.dirs }

/-- `Path::join` with a single component. -/
def joinPath (dir name : Str) : Str := dir ++ '/' :: name

/-- `fs::write`: record the file contents at the path. -/
def write_file (path : Str) (data : Bytes) (fs : FileSystem) : FileSystem :=
  { fs with files := (path, data) :: fs.files }

/-- `extract_raw_binary` from `src/installers/gh_release/extractor.rs`:
`create_dir_all(bin_location)` first, then take the first requested binary
name (failing with NoBinaryNameSpecified when there is none), then write
the bytes to `bin_location/{name}`. -/
def extract_raw_binary (binaryData : Bytes) (binaryNames : List Str)
    (binLocation : Str) (fs : FileSystem) :
    Except ExtractErr Unit × FileSystem :=
  let fs1 := create_dir_all binLocation fs
  match binaryNames.head? with
  | none => (.error .noBinaryNameSpecified, fs1)
  | some binaryName =>
    (.ok (), write_file (joinPath binLocation binaryName) binaryData fs1)

/-- **C10.** On the raw-binary path the install directory is created before
the binary-name check: a call with an empty `binary_names` list fails with
NoBinaryNameSpecified, yet the install directory exists in the resulting
filesystem state — if it was absent beforehand, the state has changed. -/
theorem extract_raw_binary_empty_names_creates_dir (binaryData : Bytes)
    (binLocation : Str) (fs : FileSystem) :
    (extract_raw_binary binaryData [] binLocation fs).1 =
      .error .noBinaryNameSpecified
    ∧ binLocation ∈ (extract_raw_binary binaryData [] binLocation fs).2.dirs
    ∧ (binLocation ∉ fs.dirs →
        (extract_raw_binary binaryData [] binLocation fs).2 ≠ fs) := by
  refine ⟨rfl, ?_, ?_⟩
  · show binLocation ∈ (create_dir_all binLocation fs).dirs
    rw [create_dir_all]
    by_cases hmem : binLocation ∈ fs.dirs
    · rw [if_pos hmem]
      exact hmem
    · rw [if_neg hmem]
      simp
  · intro hmem
    show create_dir_all binLocation fs ≠ fs
    rw [create_dir_all, if_neg hmem]
    intro heq
    have := congrArg FileSystem.dirs heq
    simp only at this
    exact hmem (this ▸ List.mem_cons_self binLocation fs.dirs)

/-- Witness for `extract_raw_binary_empty_names_creates_dir` on an empty
filesystem and install directory `/usr/local/bin`: the call errors but the
directory is created. -/
theorem extract_raw_binary_empty_names_creates_dir_witness :
    (extract_raw_binary [1, 2] [] "/usr/local/bin".data ⟨[], []⟩).1 =
      .error .noBinaryNameSpecified
    ∧ (extract_raw_binary [1, 2] [] "/usr/local/bin".data ⟨[], []⟩).2 ≠
      (⟨[], []⟩ : FileSystem) :=
  ⟨(extract_raw_binary_empty_names_creates_dir [1, 2] "/usr/local/bin".data
      ⟨[], []⟩).1,
   (extract_raw_binary_empty_names_creates_dir [1, 2] "/usr/local/bin".data
      ⟨[], []⟩).2.2 (by simp)⟩

/-! ## `src/installers/gh_release/verifier.rs` — download legs

`reqwest::get` outcomes are modelled as a function from the attempt index
to the response, so that the presence or absence of a retry loop around a
download site is observable in the embedding. -/

/-- An HTTP response: whether `response.status().is_success()`, and the
body bytes. -/
structure HttpResponse where
  success : Bool
  body : Bytes
  deriving Repr, DecidableEq

/-- Network behaviour at one download site: the outcome of the `k`-th
attempt (transport error text, or a response). -/
abbrev Net := Nat → Except Str HttpResponse

/-- Error surfaced by a verifier download leg: a transport error, or the
taxonomy kind DownloadFailed on a non-success status. -/
inductive DownloadErr
  | transport (msg : Str)
  | downloadFailed
  deriving Repr, DecidableEq

/-- One `reqwest::get` plus status check, at attempt `k`. -/
def download_attempt (net : Net) (k : Nat) : Except DownloadErr Bytes :=
  match net k with
  | .error e => .error (.transport e)
  | .ok resp =>
    if resp.success then .ok resp.body else .error .downloadFailed

/-- `download_asset_data` from `src/installers/gh_release/verifier.rs`:
a single `reqwest::get` on the asset URL followed by the status check.
The function body contains no retry loop and receives no `RetryConfig`, so
exactly one network attempt (index 0) is performed; the second component
records the number of attempts.  (`download_asset_text` and the URL branch
of `load_public_key` have the same single-`reqwest::get` shape.) -/
def download_asset_data (net : Net) : Except DownloadErr Bytes × Nat :=
  (download_attempt net 0, 1)

/-- A network that fails transiently: attempt 0 is a transport error, every
later attempt succeeds. -/
def flakyNet : Net := fun k =>
  if k = 0 then .error "connection reset".data else .ok ⟨true, [7, 7]⟩

/-- **C1 counterexample.** The Verifier's download leg is not wrapped in
the RetryExecutor: on a transiently failing network (attempt 0 fails,
attempt 1 would succeed) and with `RetryConfig.max_retries = 1` in force,
the claim demands up to 2 attempts before failure surfaces, but
`download_asset_data` performs exactly 1 attempt and surfaces the failure —
while `retry_async` with the same configuration over the same download
succeeds after 2 invocations. -/
theorem verifier_download_not_retried :
    (download_asset_data flakyNet).1 =
      .error (.transport "connection reset".data)
    ∧ (download_asset_data flakyNet).2 = 1
    ∧ (retry_async ⟨1, 100⟩ (download_attempt flakyNet)).result = .ok [7, 7]
    ∧ (retry_async ⟨1, 100⟩ (download_attempt flakyNet)).invocations = 2 :=
  ⟨rfl, rfl, rfl, rfl⟩

/-- **C1 (amended).** Network downloads inside the Verifier are performed
directly rather than through the RetryExecutor: for every network
behaviour, `download_asset_data` makes exactly one attempt and behaves as
`retry_async` would with `max_retries = 0` (a single invocation), whatever
`max_retries` the process-wide RetryConfig carries — the config is not
consulted by the Verifier's download legs. -/
theorem verifier_download_single_attempt (net : Net) (cfg : RetryConfig) :
    (download_asset_data net).2 = 1
    ∧ (download_asset_data net).1 = download_attempt net 0
    ∧ (download_asset_data net).1 =
      (retry_async ⟨0, cfg.initial_delay_ms⟩ (download_attempt net)).result :=
  ⟨rfl, rfl, rfl⟩

/-! ## `src/installers/gh_release/verifier.rs` — verification flow

The external collaborators (network downloads, the pgp crate, the sha2
crate) enter as an environment of outcome functions; the flow additionally
returns the trace of effects it performed, so that "no checksum file is
consulted" and "nothing is downloaded or hashed" are expressible. -/

/-- Observable effects of the verification flow. -/
inductive VerifyEffect
  | downloadData (asset : Asset)
  | downloadText (asset : Asset)
  | loadKey
  | computeHash (algorithm : Str)
  | warnNoKey
  deriving Repr, DecidableEq

/-- Errors of the verification flow (taxonomy kinds). -/
inductive VerifyErr
  | downloadFailed
  | gpgVerificationFailed
  | noChecksumFound
  | checksumMismatch
  | noValidChecksums
  | noMatchingChecksum
  deriving Repr, DecidableEq

/-- Outcomes of the external operations used by the verification flow:
asset downloads, checksum-text downloads (the text given as its lines),
public-key loading, pgp signature checking, and digest computation. -/
structure VerifyEnv where
  downloadData : Asset → Except VerifyErr Bytes
  downloadText : Asset → Except VerifyErr (List Str)
  loadKey : Except VerifyErr Unit
  gpgCheck : Bytes → Bytes → Except VerifyErr Unit
  hash : Str → Bytes → Str

/-- `find_signature_asset` from `src/installers/gh_release/verifier.rs`:
the first asset named exactly `{asset}.asc` or `{asset}.sig`. -/
def find_signature_asset (assets : List Asset) (asset : Asset) :
    Option Asset :=
  assets.find? (fun a =>
    a.name = asset.name ++ ".asc".data ∨ a.name = asset.name ++ ".sig".data)

/-- Rust `str::strip_suffix`. -/
def stripSuffix (s suffix : Str) : Option Str :=
  if List.isSuffixOf suffix s then
    some (s.take (s.length - suffix.length))
  else
    none

/-- The compression-suffix table of `get_filename_variants`. -/
def compression_extensions : List Str :=
  [".tar.gz", ".tgz", ".tar.xz", ".txz", ".tar.bz2", ".tbz2", ".tar.Z",
   ".tar.lz", ".tar.lzma", ".zip", ".gz", ".xz", ".bz2", ".Z", ".lz",
   ".lzma"].map String.data

/-- The suffix loop of `get_filename_variants`: strip the first matching
compression extension (then `break`); no match leaves the name intact. -/
def firstSuffixStripped (filename : Str) : List Str → Str
  | [] => filename
  | ext :: rest =>
    match stripSuffix filename ext with
    | some base => base
    | none => firstSuffixStripped filename rest

/-- `get_filename_variants` from `src/installers/gh_release/verifier.rs`:
the filename itself, plus the base name with its compression suffix
stripped when one matched. -/
def get_filename_variants (filename : Str) : List Str :=
  let base := firstSuffixStripped filename compression_extensions
  if base ≠ filename then [filename, base] else [filename]

/-- Rust `str::eq_ignore_ascii_case` (Lean's `Char.toLower` lowers exactly
the ASCII range). -/
def eq_ignore_ascii_case (a b : Str) : Bool := lowerStr a = lowerStr b

/-- `build_checksum_patterns` from
`src/installers/gh_release/verifier.rs`: per-variant `.sha256`,
`.sha256sum`, `.sha512`, `.sha512sum` candidates followed by the generic
checksum-file names. -/
def build_checksum_patterns (filename : Str) : List Str :=
  ((get_filename_variants filename).map (fun v =>
    [v ++ ".sha256".data, v ++ ".sha256sum".data,
     v ++ ".sha512".data, v ++ ".sha512sum".data])).flatten
  ++ ["SHA256SUMS".data, "sha256sums.txt".data, "checksums.txt".data,
      "CHECKSUMS".data, "checksums.sha256".data, "SHA512SUMS".data,
      "checksums.sha512".data]

/-- `find_checksum_asset` from `src/installers/gh_release/verifier.rs`:
the first asset whose name matches a candidate pattern case-insensitively;
none gives NoChecksumFound. -/
def find_checksum_asset (assets : List Asset) (asset : Asset) :
    Except VerifyErr Asset :=
  match assets.find? (fun a =>
      (build_checksum_patterns asset.name).any
        (fun p => eq_ignore_ascii_case a.name p)) with
  | some a => .ok a
  | none => .error .noChecksumFound

/-- `verify_gpg_signature` from `src/installers/gh_release/verifier.rs`:
with a key, `try_join!` the asset download, the signature download and the
key load (all three are started), then check the signature; with no key,
warn and return `Ok(())`. -/
def verify_gpg_signature (env : VerifyEnv) (asset signatureAsset : Asset)
    (gpgKey : Option Str) : Except VerifyErr Unit × List VerifyEffect :=
  match gpgKey with
  | some _ =>
    let effects := [VerifyEffect.downloadData asset,
      VerifyEffect.downloadData signatureAsset, VerifyEffect.loadKey]
    match env.downloadData asset, env.downloadData signatureAsset,
        env.loadKey with
    | .ok assetData, .ok sigData, .ok () =>
      (env.gpgCheck sigData assetData, effects)
    | .error e, _, _ => (.error e, effects)
    | _, .error e, _ => (.error e, effects)
    | _, _, .error e => (.error e, effects)
  | none => (.ok (), [VerifyEffect.warnNoKey])

/-- The variant loop of `verify_checksum_file`: look each filename variant
up in the parsed checksum map; on the first hit compute the digest and
compare case-insensitively (ChecksumMismatch on disagreement); no hit for
any variant gives the "no matching checksum" error. -/
def checksumLoop (env : VerifyEnv) (assetData : Bytes)
    (checksums : List (Str × Str × Str)) :
    List Str → List VerifyEffect → Except VerifyErr Unit × List VerifyEffect
  | [], effects => (.error .noMatchingChecksum, effects)
  | variant :: rest, effects =>
    match checksumsGet checksums variant with
    | some (algorithm, expected) =>
      let computed := env.hash algorithm assetData
      if eq_ignore_ascii_case computed expected then
        (.ok (), effects ++ [VerifyEffect.computeHash algorithm])
      else
        (.error .checksumMismatch,
          effects ++ [VerifyEffect.computeHash algorithm])
    | none => checksumLoop env assetData checksums rest effects

/-- `verify_checksum_file` from `src/installers/gh_release/verifier.rs`:
`try_join!` the asset download and the checksum-file text download, parse
the checksum file, then run the variant loop. -/
def verify_checksum_file (env : VerifyEnv) (asset checksumAsset : Asset) :
    Except VerifyErr Unit × List VerifyEffect :=
  let effects := [VerifyEffect.downloadData asset,
    VerifyEffect.downloadText checksumAsset]
  match env.downloadData asset, env.downloadText checksumAsset with
  | .ok assetData, .ok checksumLines =>
    match parse_checksum_file checksumLines with
    | .error _ => (.error .noValidChecksums, effects)
    | .ok checksums =>
      checksumLoop env assetData checksums
        (get_filename_variants asset.name) effects
  | .error e, _ => (.error e, effects)
  | _, .error e => (.error e, effects)

/-- `verify_asset` from `src/installers/gh_release/verifier.rs`: if a
signature asset exists, take the signature path and return; otherwise
discover a checksum asset (NoChecksumFound if none) and verify against
it. -/
def verify_asset (env : VerifyEnv) (assets : List Asset) (asset : Asset)
    (gpgKey : Option Str) : Except VerifyErr Unit × List VerifyEffect :=
  match find_signature_asset assets asset with
  | some sigAsset => verify_gpg_signature env asset sigAsset gpgKey
  | none =>
    match find_checksum_asset assets asset with
    | .error e => (.error e, [])
    | .ok checksumAsset => verify_checksum_file env asset checksumAsset

theorem verify_gpg_signature_some_trace (env : VerifyEnv)
    (asset sigAsset : Asset) (k : Str) :
    (verify_gpg_signature env asset sigAsset (some k)).2 =
      [VerifyEffect.downloadData asset,
        VerifyEffect.downloadData sigAsset, VerifyEffect.loadKey] := by
  rw [verify_gpg_signature]
  rcases h1 : env.downloadData asset with e1 | d1 <;>
    rcases h2 : env.downloadData sigAsset with e2 | d2 <;>
    rcases h3 : env.loadKey with e3 | u3 <;>
    simp

/-- **C7.** When a signature asset (exact name `{asset}.asc` or
`{asset}.sig`) exists in the asset list but no public key was supplied,
verification succeeds rather than erroring: the only effect is the
no-key warning, and this holds for every environment — in particular no
download needs to succeed. -/
theorem verify_no_key_succeeds_with_warning (env : VerifyEnv)
    (assets : List Asset) (asset sigAsset : Asset)
    (hsig : find_signature_asset assets asset = some sigAsset) :
    verify_asset env assets asset none = (.ok (), [VerifyEffect.warnNoKey])
    ∧ (sigAsset.name = asset.name ++ ".asc".data ∨
        sigAsset.name = asset.name ++ ".sig".data) := by
  constructor
  · rw [verify_asset, hsig]
    rfl
  · have hp := List.find?_some hsig
    simpa using hp

/-- Witness for `verify_no_key_succeeds_with_warning`: a release holding
`tool.tar.gz.sig` beside `tool.tar.gz`, verified with no key and an
environment whose downloads all fail, still verifies successfully. -/
theorem verify_no_key_succeeds_with_warning_witness :
    verify_asset
      ⟨fun _ => .error .downloadFailed, fun _ => .error .downloadFailed,
        .error .downloadFailed, fun _ _ => .error .gpgVerificationFailed,
        fun _ _ => []⟩
      [⟨"tool.tar.gz".data, "".data⟩, ⟨"tool.tar.gz.sig".data, "".data⟩]
      ⟨"tool.tar.gz".data, "".data⟩ none =
      (.ok (), [VerifyEffect.warnNoKey]) :=
  (verify_no_key_succeeds_with_warning _ _ _ ⟨"tool.tar.gz.sig".data, "".data⟩
    (by decide)).1

/-- **C9.** Whenever a signature asset named exactly `{asset}.asc` or
`{asset}.sig` is present, `verify_asset` takes the signature path: for any
key option its effect trace contains no checksum-text download and no
digest computation; and with no key it returns success with only the
warning — no download and no hashing of the asset bytes — however many
matching checksum files sit in the asset list. -/
theorem verify_asset_signature_path (env : VerifyEnv) (assets : List Asset)
    (asset sigAsset : Asset) (gpgKey : Option Str)
    (hsig : find_signature_asset assets asset = some sigAsset) :
    (∀ eff ∈ (verify_asset env assets asset gpgKey).2,
      (∀ a, eff ≠ VerifyEffect.downloadText a) ∧
      (∀ alg, eff ≠ VerifyEffect.computeHash alg))
    ∧ (gpgKey = none →
        verify_asset env assets asset gpgKey =
          (.ok (), [VerifyEffect.warnNoKey])) := by
  constructor
  · intro eff heff
    rw [verify_asset, hsig] at heff
    rcases gpgKey with _ | k
    · replace heff : eff ∈ [VerifyEffect.warnNoKey] := heff
      simp only [List.mem_singleton] at heff
      subst heff
      exact ⟨fun a h => VerifyEffect.noConfusion h,
        fun alg h => VerifyEffect.noConfusion h⟩
    · rw [verify_gpg_signature_some_trace env asset sigAsset k] at heff
      rcases List.mem_cons.mp heff with rfl | heff
      · exact ⟨fun a h => VerifyEffect.noConfusion h,
          fun alg h => VerifyEffect.noConfusion h⟩
      · rcases List.mem_cons.mp heff with rfl | heff
        · exact ⟨fun a h => VerifyEffect.noConfusion h,
            fun alg h => VerifyEffect.noConfusion h⟩
        · rcases List.mem_cons.mp heff with rfl | heff
          · exact ⟨fun a h => VerifyEffect.noConfusion h,
              fun alg h => VerifyEffect.noConfusion h⟩
          · simp at heff
  · rintro rfl
    rw [verify_asset, hsig]
    rfl

/-- Witness for `verify_asset_signature_path`: with both
`tool.tar.gz.sig` and a matching `tool.tar.gz.sha256` present and no key,
`verify_asset` succeeds with only the warning effect — the checksum file is
never consulted. -/
theorem verify_asset_signature_path_witness :
    verify_asset
      ⟨fun _ => .ok [1], fun _ => .ok ["deadbeef  tool.tar.gz".data],
        .ok (), fun _ _ => .ok (), fun _ _ => "deadbeef".data⟩
      [⟨"tool.tar.gz".data, "".data⟩,
       ⟨"tool.tar.gz.sha256".data, "".data⟩,
       ⟨"tool.tar.gz.sig".data, "".data⟩]
      ⟨"tool.tar.gz".data, "".data⟩ none =
      (.ok (), [VerifyEffect.warnNoKey]) :=
  (verify_asset_signature_path _ _ _ ⟨"tool.tar.gz.sig".data, "".data⟩ none
    (by decide)).2 rfl

end Picolayer
